import Mathlib

/-!
Verification of the Navalmorapp cinema updater (`scripts/update_cinema.py`).

The development shallowly embeds the pure text-processing core of the script:
the node-by-node movie-listing parser `parse_movies`, the showtime
deduplication, the Spanish date parser `parse_spanish_date`, the showtime
sorter `sort_showtimes`, the title-cleaning post-processing of
`clean_titles_with_ai`, and the record serialization of `generate_json`.

Strings are modelled as `List Char` (`Str`), matching Python's
character-based `len`/indexing.  The regular expressions used by the script
are small and are embedded as explicit scanners.  Network access (Playwright,
Gemini, TMDB) and file I/O are external collaborators; the functions below
take their results as arguments (e.g. the AI response text as `Option Str`).
-/

/-- Python-style strings: a list of characters. -/
abbrev Str := List Char

/-- Characters treated as whitespace by Python's `str.strip` / `\s`
(ASCII subset; the script's inputs contain no exotic Unicode spaces). -/
def isPySpace (c : Char) : Bool :=
  c = ' ' ∨ c = '\t' ∨ c = '\n' ∨ c = '\r' ∨ c = '\x0b' ∨ c = '\x0c'

/-- Uppercasing a character as Python `str.upper` does on the script's
alphabet: ASCII plus the Spanish accented letters. -/
def upChar (c : Char) : Char :=
  if c = 'á' then 'Á' else if c = 'é' then 'É' else if c = 'í' then 'Í'
  else if c = 'ó' then 'Ó' else if c = 'ú' then 'Ú' else if c = 'ü' then 'Ü'
  else if c = 'ñ' then 'Ñ' else c.toUpper

/-- Lowercasing a character (Python `str.lower` on the script's alphabet). -/
def lowChar (c : Char) : Char :=
  if c = 'Á' then 'á' else if c = 'É' then 'é' else if c = 'Í' then 'í'
  else if c = 'Ó' then 'ó' else if c = 'Ú' then 'ú' else if c = 'Ü' then 'ü'
  else if c = 'Ñ' then 'ñ' else c.toLower

/-- Python `str.upper`. -/
def upperStr (s : Str) : Str := s.map upChar

/-- Python `str.lower`. -/
def lowerStr (s : Str) : Str := s.map lowChar

/-- Python `str.lstrip()`. -/
def pyLstrip (s : Str) : Str := s.dropWhile isPySpace

/-- Python `str.rstrip()`. -/
def pyRstrip (s : Str) : Str := (s.reverse.dropWhile isPySpace).reverse

/-- Python `str.strip()`. -/
def pyStrip (s : Str) : Str := pyLstrip (pyRstrip s)

/-- Python `str.rstrip(ch)` for a single strip character. -/
def pyRstripCh (ch : Char) (s : Str) : Str :=
  (s.reverse.dropWhile (fun c => c = ch)).reverse

/-- Does `pat` occur as a prefix of `s`? -/
def startsStr : Str → Str → Bool
  | [], _ => true
  | _ :: _, [] => false
  | p :: ps, c :: cs => p = c && startsStr ps cs

/-- Does `pat` occur as a substring of `hay`?  (Python `pat in hay`.) -/
def containsStr (hay pat : Str) : Bool :=
  match hay with
  | [] => pat.isEmpty
  | _ :: rest => startsStr pat hay || containsStr rest pat

/-- Helper for `re.sub(r'\s+', ' ', text)`: collapse every whitespace run
to one space. -/
def normSpacesGo (prevSpace : Bool) : Str → Str
  | [] => []
  | c :: rest =>
    if isPySpace c then
      if prevSpace then normSpacesGo true rest else ' ' :: normSpacesGo true rest
    else c :: normSpacesGo false rest

/-- Whitespace normalization applied to every node text by `parse_movies`. -/
def normSpaces (s : Str) : Str := normSpacesGo false s

/-- Python `str.split(sep)` for a one-character separator (keeps empty parts). -/
def pySplit (sep : Char) : Str → List Str
  | [] => [[]]
  | c :: rest =>
    if c = sep then [] :: pySplit sep rest
    else
      match pySplit sep rest with
      | [] => [[c]]
      | h :: t => (c :: h) :: t

/-- Python `str.split()` with no argument: split on whitespace runs,
dropping empty parts.  `acc` is the current word, reversed. -/
def pyWsSplitGo (acc : Str) : Str → List Str
  | [] => if acc = [] then [] else [acc.reverse]
  | c :: rest =>
    if isPySpace c then
      if acc = [] then pyWsSplitGo [] rest else acc.reverse :: pyWsSplitGo [] rest
    else pyWsSplitGo (c :: acc) rest

/-- Python `str.split()` with no argument. -/
def pyWsSplit (s : Str) : List Str := pyWsSplitGo [] s

/-- Python `str.isdigit()` (ASCII digits, as produced by the scanners here). -/
def pyIsdigit (s : Str) : Bool := ¬ s.isEmpty && s.all Char.isDigit

/-- Numeric value of a digit string. -/
def digitsVal (s : Str) : Nat := s.foldl (fun a c => a * 10 + (c.toNat - 48)) 0

/-- Python `int(s)` restricted to plain digit strings, as `Option`
(the script only ever feeds it digit runs found by its own regexes);
a non-digit argument raises `ValueError`, modelled as `none`. -/
def pyIntQ (s : Str) : Option Nat :=
  if pyIsdigit s then some (digitsVal s) else none

/-- Decimal representation of a natural number (Python `str(n)`). -/
def natStr (n : Nat) : Str := Nat.toDigits 10 n

/-- Python formatting with `02d`: zero-pad to two digits. -/
def pad2 (n : Nat) : Str := if n < 10 then '0' :: natStr n else natStr n

/-- Truthiness of an optional string, as Python evaluates `x` in `x or y`
and in `if x:`: `None` and the empty string are falsy. -/
def pyTruthy (o : Option Str) : Bool :=
  match o with
  | some s => ¬ s.isEmpty
  | none => false

/-- Python `x or y` on optional strings. -/
def pyOrStr (a b : Option Str) : Option Str := if pyTruthy a then a else b

/-- Is `c` a time separator, the character class `[:\.]`? -/
def isSep (c : Char) : Bool := c = ':' ∨ c = '.'

/-- Word character for `\w` (letters of the script's alphabet, digits, underscore). -/
def isWordChar (c : Char) : Bool :=
  c.isAlphanum || c = '_' ||
  c ∈ ['á', 'é', 'í', 'ó', 'ú', 'ü', 'ñ', 'Á', 'É', 'Í', 'Ó', 'Ú', 'Ü', 'Ñ']

/-- All matches of `re.findall(r'(\d{1,2}[:\.]\d{2})', text)`:
left-to-right, non-overlapping, the hour greedily taking two digits. -/
def findTimes : Str → List Str
  | a :: b :: c :: d :: e :: rest =>
    if a.isDigit ∧ b.isDigit ∧ isSep c ∧ d.isDigit ∧ e.isDigit then
      [a, b, c, d, e] :: findTimes rest
    else if a.isDigit ∧ isSep b ∧ c.isDigit ∧ d.isDigit then
      [a, b, c, d] :: findTimes (e :: rest)
    else findTimes (b :: c :: d :: e :: rest)
  | [a, b, c, d] =>
    if a.isDigit ∧ isSep b ∧ c.isDigit ∧ d.isDigit then [[a, b, c, d]] else []
  | _ => []

/-- The uppercase day keywords of the day regex
`(Lunes|Martes|Miércoles|Miercoles|Jueves|Viernes|Sábado|Sabado|Domingo|Diario|Laborables|Festivos|...)`
searched case-insensitively. -/
def dayWordsU : List Str :=
  (["LUNES", "MARTES", "MIÉRCOLES", "MIERCOLES", "JUEVES", "VIERNES",
    "SÁBADO", "SABADO", "DOMINGO", "DIARIO", "LABORABLES", "FESTIVOS"]).map String.data

/-- After `Del` the regex requires `\s+` then a digit or word character
(`Del\s+\d+|Del\s+\w+`); since `\d` chars are `\w` chars this is
one-or-more whitespace characters followed by a word character. -/
def wsThenWord : Str → Bool
  | [] => false
  | c :: rest => if isPySpace c then wsThenWord rest else isWordChar c

/-- Does `Del\s+\w` match at some position of the (already uppercased) text? -/
def delSearch : Str → Bool
  | [] => false
  | 'D' :: 'E' :: 'L' :: c :: rest =>
    (isPySpace c && wsThenWord (c :: rest)) || delSearch ('E' :: 'L' :: c :: rest)
  | _ :: rest => delSearch rest

/-- Truthiness of `day_regex.search(text)`: a case-insensitive occurrence of
a day keyword, or of `Del` + whitespace + a word character. -/
def dayRegexSearch (s : Str) : Bool :=
  dayWordsU.any (fun w => containsStr (upperStr s) w) || delSearch (upperStr s)

/-- Case-insensitive match of an (uppercase) literal pattern against a prefix
of `s`, returning the rest of `s` on success. -/
def matchCI : Str → Str → Option Str
  | [], s => some s
  | _ :: _, [] => none
  | p :: ps, c :: cs => if upChar c = p then matchCI ps cs else none

theorem matchCI_len : ∀ p s r, matchCI p s = some r → r.length + p.length = s.length := by
  intro p
  induction p with
  | nil => intro s r h; simp [matchCI] at h; simp [h]
  | cons a ps ih =>
    intro s r h
    cases s with
    | nil => simp [matchCI] at h
    | cons c cs =>
      simp only [matchCI] at h
      split at h
      · have := ih cs r h
        simp [List.length_cons]
        omega
      · exact absurd h (by simp)

/-- Whitespace-or-colon, the character class `[\s:]`. -/
def wsColon (c : Char) : Bool := isPySpace c || c = ':'

/-- Helper for the label deletion below, structurally recursive on a fuel
that starts at the text length (each step consumes at least one character,
so the fuel never runs out on the initial call). -/
def subLabelGo : Nat → Str → Str
  | _, [] => []
  | 0, s => s
  | fuel + 1, c :: rest =>
    match matchCI ("ARGUMENTO".data) (c :: rest) with
    | some r => subLabelGo fuel (r.dropWhile wsColon)
    | none =>
      match matchCI ("SINOPSIS".data) (c :: rest) with
      | some r => subLabelGo fuel (r.dropWhile wsColon)
      | none => c :: subLabelGo fuel rest

/-- Embedding of `re.sub` with pattern `(ARGUMENTO|SINOPSIS)[\s:]*` and
`re.IGNORECASE`: delete every occurrence of either label together with the
run of whitespace/colons that follows it. -/
def subLabel (s : Str) : Str := subLabelGo s.length s

/-- Match a case-sensitive literal against a prefix of `s`, returning the rest. -/
def matchLit : Str → Str → Option Str
  | [], s => some s
  | _ :: _, [] => none
  | p :: ps, c :: cs => if c = p then matchLit ps cs else none

/-- Try `re.search(r'Duración:\s*(\d+)\s*min', text)` anchored at the start of
`s`; return the captured digit group. -/
def durAt (s : Str) : Option Str :=
  match matchLit ("Duración:".data) s with
  | none => none
  | some r =>
    let r1 := r.dropWhile isPySpace
    let ds := r1.takeWhile Char.isDigit
    if ds.isEmpty then none
    else
      match matchLit ("min".data) ((r1.dropWhile Char.isDigit).dropWhile isPySpace) with
      | some _ => some ds
      | none => none

/-- The first match of `re.search(r'Duración:\s*(\d+)\s*min', text)`. -/
def durSearch : Str → Option Str
  | [] => none
  | c :: rest =>
    match durAt (c :: rest) with
    | some d => some d
    | none => durSearch rest

/-- Try `re.search(r'Año:\s*(\d{4})', text)` anchored at the start of `s`;
return the captured four digits. -/
def yearAt (s : Str) : Option Str :=
  match matchLit ("Año:".data) s with
  | none => none
  | some r =>
    match r.dropWhile isPySpace with
    | a :: b :: c :: d :: _ =>
      if a.isDigit ∧ b.isDigit ∧ c.isDigit ∧ d.isDigit then some [a, b, c, d] else none
    | _ => none

/-- The first match of `re.search(r'Año:\s*(\d{4})', text)`. -/
def yearSearch : Str → Option Str
  | [] => none
  | c :: rest =>
    match yearAt (c :: rest) with
    | some d => some d
    | none => yearSearch rest

/-- Replace `.` with `:` in a found time (`time.replace('.', ':')`). -/
def cleanTime (t : Str) : Str := t.map (fun c => if c = '.' then ':' else c)

/-- Hour of a stored time string, as the dedup loop computes it:
`parts = t.split(':'); h = int(parts[0]); m = parts[1]` — `none` when the
loop would hit `ValueError`/`IndexError` and `continue`. -/
def hourOf (t : Str) : Option Nat :=
  match pySplit ':' t with
  | p0 :: _ :: _ => pyIntQ p0
  | _ => none

/-- Minute part of a stored time string (`parts[1]`). -/
def minOf (t : Str) : Str :=
  match pySplit ':' t with
  | _ :: p1 :: _ => p1
  | _ => []

/-- The 12-hour-clock strings that one stored time marks for removal: for an
hour `13 ≤ h ≤ 23` these are `h-12` unpadded and zero-padded, with the
minutes reattached. -/
def rem12 (t : Str) : List Str :=
  match hourOf t with
  | some h =>
    if 13 ≤ h ∧ h ≤ 23 then
      [natStr (h - 12) ++ ':' :: minOf t, pad2 (h - 12) ++ ':' :: minOf t]
    else []
  | none => []

/-- The `to_remove` set accumulated over all times of a day-key list. -/
def remAll : List Str → List Str
  | [] => []
  | t :: rest => rem12 t ++ remAll rest

/-- The final filter of the dedup step:
`[t for t in times if t not in to_remove]`. -/
def dedupTimes (ts : List Str) : List Str :=
  ts.filter (fun t => decide (t ∉ remAll ts))

/-- Append each cleaned found time that is not already present
(`if clean_time not in showtimes[day_key]: append`). -/
def addTimes (cur : List Str) (found : List Str) : List Str :=
  found.foldl (fun acc t => if cleanTime t ∈ acc then acc else acc ++ [cleanTime t]) cur

/-- Lookup in a Python dict modelled as an insertion-ordered association list. -/
def dictGet? {α : Type} : List (Str × α) → Str → Option α
  | [], _ => none
  | (k', v) :: rest, k => if k' = k then some v else dictGet? rest k

/-- Lookup with a default. -/
def dictGetD {α : Type} (d : List (Str × α)) (k : Str) (dflt : α) : α :=
  (dictGet? d k).getD dflt

/-- Python dict assignment `d[k] = v`: update in place if the key exists
(keys are unique by construction), else append at the end. -/
def dictSet {α : Type} : List (Str × α) → Str → α → List (Str × α)
  | [], k, v => [(k, v)]
  | (k', v') :: rest, k, v =>
    if k' = k then (k', v) :: rest else (k', v') :: dictSet rest k v

/-- An image element as the parser reads it: the lazy-load attribute
`data-src` and the plain `src`. -/
structure Img where
  dataSrc : Option Str
  src : Option Str
deriving DecidableEq

/-- An embedded frame element: `src` and `data-src`. -/
structure Frame where
  src : Option Str
  dataSrc : Option Str
deriving DecidableEq

/-- One top-level sibling node of the content container, exposing exactly the
BeautifulSoup API surface `parse_movies` uses: `node.name` (`none` for a bare
text node, which the loop skips), the text `node.get_text(' ', strip=True)`,
and the descendant `img`/`iframe` elements in document order
(`select_one` takes the first). -/
structure Node where
  name : Option Str
  text : Str
  imgs : List Img
  frames : List Frame
deriving DecidableEq

/-- A movie record under construction (the `current_movie` dict).  Keys the
script adds later (`year`, `title_clean`, TMDB enrichment) are `Option`
fields, `none` standing for an absent key.  The TMDB `vote_average` float is
carried opaquely as a rational. -/
structure Movie where
  title : Str
  poster : Option Str
  showtimes : List (Str × List Str)
  synopsis : Option Str
  duration : Option Str
  trailer : Option Str
  year : Option Str := none
  titleClean : Option Str := none
  posterTmdb : Option Str := none
  backdrop : Option Str := none
  overview : Option Str := none
  rating : Option Rat := none
  releaseDate : Option Str := none
deriving DecidableEq

/-- The freshly initialised record built at a qualifying `h2` heading. -/
def newMovie (title : Str) : Movie :=
  { title := title, poster := none, showtimes := [], synopsis := none,
    duration := none, trailer := none }

/-- The scan state of `parse_movies`: emitted movies, the open record, and
the two state-machine variables `current_day` and `expecting_synopsis`. -/
structure ParseState where
  movies : List Movie
  current : Option Movie
  currentDay : Option Str
  expectingSynopsis : Bool
deriving DecidableEq

/-- The heading denylist of `parse_movies`, matched as substrings of the
uppercased text. -/
def denyWords : List Str :=
  (["HORARIO", "FICHA", "ARGUMENTO", "TRAILER", "NAVALMORAL", "€", "COMPRA"]).map String.data

/-- Does the (normalized) text contain a denylist token? -/
def headingDenied (t : Str) : Bool := denyWords.any (fun w => containsStr (upperStr t) w)

/-- Does this node open a new record?  (`node.name == 'h2' and text and not
any(x in text.upper() for x in [...])`.) -/
def isNewTitle (n : Node) : Bool :=
  n.name == some ("h2".data) && ¬ (normSpaces n.text).isEmpty
    && ¬ headingDenied (normSpaces n.text)

/-- Truthiness check that appends the open record to the output exactly when
it passes the retention guard
`current_movie.get('poster') and current_movie.get('showtimes')`. -/
def retain (m : Movie) : Bool := pyTruthy m.poster && ¬ m.showtimes.isEmpty

/-- Emit the open record if the retention guard passes. -/
def emitCurrent (ms : List Movie) (cur : Option Movie) : List Movie :=
  match cur with
  | some m => if retain m then ms ++ [m] else ms
  | none => ms

/-- Poster extraction: first descendant image, `data-src` preferred over
`src` by Python `or`, rejected when falsy or containing `base64`, or `logo`
case-insensitively. -/
def posterStep (n : Node) (m : Movie) : Movie :=
  if m.poster = none then
    match n.imgs.head? with
    | some img =>
      match pyOrStr img.dataSrc img.src with
      | some src =>
        if ¬ src.isEmpty ∧ ¬ containsStr src ("base64".data)
            ∧ ¬ containsStr (lowerStr src) ("logo".data) then
          { m with poster := some src }
        else m
      | none => m
    | none => m
  else m

/-- Cut `Lunes 27: 17:00` down to `Lunes 27`: split on `:` and keep the left
part when the part after the first colon starts with optional whitespace and
a digit. -/
def dayColonCut (c : Str) : Str :=
  let parts := pySplit ':' c
  if parts.length > 1 ∧ (((parts.getD 1 []).dropWhile isPySpace).head?.any Char.isDigit) then
    pyStrip (parts.getD 0 [])
  else c

/-- Capitalize the first character (`candidate[0].upper() + candidate[1:]`). -/
def capFirst : Str → Str
  | [] => []
  | c :: rest => upChar c :: rest

/-- The day-context candidate accepted by a node text, if any: the day regex
must match, the text must be shorter than 80 characters, and after cleaning
the candidate must be shorter than 50 characters. -/
def dayAccepted (text : Str) : Option Str :=
  if dayRegexSearch text ∧ text.length < 80 then
    let c0 := pyStrip text
    let c1 := if ':' ∈ c0 then dayColonCut c0 else c0
    let c2 := pyStrip (pyRstripCh ':' c1)
    if c2.length < 50 then some (capFirst c2) else none
  else none

/-- Day-context update: an accepted candidate overwrites `current_day`,
otherwise the previous context persists. -/
def dayStep (text : Str) (cur : Option Str) : Option Str :=
  match dayAccepted text with
  | some c => some c
  | none => cur

/-- Resolve the target day-key:
`day_key = current_day if current_day else "Horarios"`. -/
def resolveDayKey (cur : Option Str) : Str :=
  match cur with
  | some d => if d.isEmpty then "Horarios".data else d
  | none => "Horarios".data

/-- Showtime extraction for one node: if any time matches, append the new
cleaned times under the resolved day-key and re-run the 12-hour/24-hour
deduplication filter over that key's list. -/
def timesStep (text : Str) (dayKey : Str) (m : Movie) : Movie :=
  if findTimes text = [] then m
  else
    let times := addTimes (dictGetD m.showtimes dayKey []) (findTimes text)
    { m with showtimes := dictSet m.showtimes dayKey (dedupTimes times) }

/-- The metadata-label markers that block synopsis capture (case-sensitive). -/
def metaWords : List Str :=
  (["Título original:", "Dirección:", "Reparto:", "FICHA"]).map String.data

/-- Does the text contain a metadata-label marker? -/
def hasMetaWord (t : Str) : Bool := metaWords.any (fun w => containsStr t w)

/-- Does the uppercased text contain `ARGUMENTO` or `SINOPSIS`? -/
def hasLabel (t : Str) : Bool :=
  containsStr (upperStr t) ("ARGUMENTO".data) || containsStr (upperStr t) ("SINOPSIS".data)

/-- The markers of the orphan-paragraph heuristic (case-sensitive). -/
def heurWords : List Str :=
  (["Título original:", "Dirección:", "Reparto:", "FICHA", "HORARIO",
    "Sábado", "Domingo", "Lunes", "Martes", "Miércoles", "Jueves", "Viernes"]).map String.data

/-- Does the text contain an orphan-paragraph blocker? -/
def hasHeurWord (t : Str) : Bool := heurWords.any (fun w => containsStr t w)

/-- Synopsis capture for one node: the three ordered cases of the script
(expected continuation, same-node label, orphan-paragraph heuristic), each
only while no synopsis is set; returns the record and the new
`expecting_synopsis` flag. -/
def synopsisStep (text : Str) (expecting : Bool) (m : Movie) : Movie × Bool :=
  if m.synopsis = none then
    if expecting ∧ text.length > 30 ∧ ¬ hasMetaWord text then
      ({ m with synopsis := some (pyStrip text) }, false)
    else if text.length > 10 ∧ hasLabel text then
      if text.length < 30 then (m, true)
      else ({ m with synopsis := some (pyStrip (subLabel text)) }, expecting)
    else if text.length > 60 ∧ ¬ hasHeurWord text then
      ({ m with synopsis := some (pyStrip text) }, expecting)
    else (m, expecting)
  else (m, expecting)

/-- Duration and year extraction (both overwrite unconditionally on a match). -/
def durYearStep (text : Str) (m : Movie) : Movie :=
  let m1 :=
    match durSearch text with
    | some ds => { m with duration := some (ds ++ (" min".data)) }
    | none => m
  match yearSearch text with
  | some ys => { m1 with year := some ys }
  | none => m1

/-- Trailer extraction: first descendant frame, `src` preferred over
`data-src`, kept only for a YouTube source. -/
def trailerStep (n : Node) (m : Movie) : Movie :=
  if m.trailer = none then
    match n.frames.head? with
    | some f =>
      match pyOrStr f.src f.dataSrc with
      | some src =>
        if ¬ src.isEmpty ∧ (containsStr src ("youtube".data) ∨ containsStr src ("youtu.be".data)) then
          { m with trailer := some src }
        else m
      | none => m
    | none => m
  else m

/-- Absorb one non-heading node into the open record, running the per-node
extraction rules in the script's order: poster, day context, times,
synopsis, duration, year, trailer. -/
def absorbNode (st : ParseState) (n : Node) (m : Movie) : ParseState :=
  let text := normSpaces n.text
  let m1 := posterStep n m
  let day2 := dayStep text st.currentDay
  let m2 := timesStep text (resolveDayKey day2) m1
  let p3 := synopsisStep text st.expectingSynopsis m2
  let m4 := durYearStep text p3.1
  let m5 := trailerStep n m4
  ⟨st.movies, some m5, day2, p3.2⟩

/-- One iteration of the `for node in content_div.children` loop. -/
def processNode (st : ParseState) (n : Node) : ParseState :=
  if n.name = none then st
  else if isNewTitle n then
    ⟨emitCurrent st.movies st.current, some (newMovie (normSpaces n.text)), none, false⟩
  else
    match st.current with
    | none => st
    | some m => absorbNode st n m

/-- The full `parse_movies` scan over the container's child nodes, flushing
the last open record through the retention guard. -/
def parseMovies (nodes : List Node) : List Movie :=
  let st := nodes.foldl processNode ⟨[], none, none, false⟩
  emitCurrent st.movies st.current

/-- The month table `MESES`, in the script's insertion order. -/
def MESES : List (Str × Nat) :=
  [("enero".data, 1), ("febrero".data, 2), ("marzo".data, 3), ("abril".data, 4),
   ("mayo".data, 5), ("junio".data, 6), ("julio".data, 7), ("agosto".data, 8),
   ("septiembre".data, 9), ("octubre".data, 10), ("noviembre".data, 11),
   ("diciembre".data, 12)]

/-- Sort value of a showtimes key: year, month, day, and a tie-break
component that is `1` only for `datetime.max` (whose time-of-day part
`23:59:59.999999` exceeds the midnight of every constructed date). -/
structure DateVal where
  year : Nat
  month : Nat
  day : Nat
  tb : Nat
deriving DecidableEq

/-- Sort value standing for `datetime.max`. -/
def dtMax : DateVal := ⟨9999, 12, 31, 1⟩

/-- Python's Gregorian leap-year rule. -/
def isLeap (y : Nat) : Bool := y % 4 = 0 ∧ (y % 100 ≠ 0 ∨ y % 400 = 0)

/-- Days in a month, as `datetime` validates the day argument. -/
def daysInMonth (y m : Nat) : Nat :=
  if m = 2 then (if isLeap y then 29 else 28)
  else if m = 4 ∨ m = 6 ∨ m = 9 ∨ m = 11 then 30 else 31

/-- Construct `datetime(year, month, day)`; an invalid date raises and the
`except` clause returns `datetime.max`. -/
def mkDateVal (y m d : Nat) : DateVal :=
  if 1 ≤ y ∧ y ≤ 9999 ∧ 1 ≤ m ∧ m ≤ 12 ∧ 1 ≤ d ∧ d ≤ daysInMonth y m then
    ⟨y, m, d, 0⟩
  else dtMax

/-- The `parse_spanish_date` key function: lowercase and whitespace-tokenize
the label; day = first all-digit token (default 1), month = first month name
present among the tokens (default 1), year = first all-digit 4-character
token (default the current year `nowYear`). -/
def parseSpanishDate (nowYear : Nat) (s : Str) : DateVal :=
  let parts := pyWsSplit (lowerStr s)
  let day := ((parts.find? pyIsdigit).map digitsVal).getD 1
  let month := ((MESES.find? (fun p => parts.contains p.1)).map Prod.snd).getD 1
  let year := ((parts.find? (fun p => pyIsdigit p && p.length == 4)).map digitsVal).getD nowYear
  mkDateVal year month day

/-- Strict comparison of sort values (Python `datetime <`), lexicographic. -/
def dateLt (a b : DateVal) : Bool :=
  decide (a.year < b.year ∨ (a.year = b.year ∧
    (a.month < b.month ∨ (a.month = b.month ∧
      (a.day < b.day ∨ (a.day = b.day ∧ a.tb < b.tb))))))

/-- Stable insertion of a key into an already sorted key list: `k` goes
before the first element not strictly below it. -/
def insertKey (ny : Nat) (k : Str) : List Str → List Str
  | [] => [k]
  | x :: xs =>
    if dateLt (parseSpanishDate ny x) (parseSpanishDate ny k) then
      x :: insertKey ny k xs
    else k :: x :: xs

/-- Stable insertion sort of the day-keys by parsed date — the same function
as Python's stable `sorted(keys, key=parse_spanish_date)`. -/
def sortKeys (ny : Nat) : List Str → List Str
  | [] => []
  | k :: ks => insertKey ny k (sortKeys ny ks)

/-- Rebuild one showtimes mapping in sorted key order
(`{k: showtimes[k] for k in sorted_keys}`; keys are unique, so the lookup
is the entry's stored list). -/
def sortShowtimesMap (ny : Nat) (d : List (Str × List Str)) : List (Str × List Str) :=
  (sortKeys ny (d.map Prod.fst)).map (fun k => (k, dictGetD d k []))

/-- The `sort_showtimes` pass over all movies (`if not showtimes: continue`). -/
def sortShowtimes (ny : Nat) (movies : List Movie) : List Movie :=
  movies.map (fun m =>
    if m.showtimes.isEmpty then m
    else { m with showtimes := sortShowtimesMap ny m.showtimes })

/-- One serialized movie entry of `generate_json` (the JSON object fields). -/
structure OutMovie where
  title : Str
  posterUrl : Option Str
  backdropUrl : Option Str
  overview : Option Str
  rating : Option Rat
  releaseDate : Option Str
  duration : Option Str
  trailerUrl : Option Str
  showtimes : List (Str × List Str)
deriving DecidableEq

/-- Serialization of one record:
`movie.get('title_clean', movie['title'])`, `poster_tmdb or poster`,
`overview or synopsis`, the rest passed through. -/
def serializeMovie (m : Movie) : OutMovie :=
  { title := m.titleClean.getD m.title,
    posterUrl := pyOrStr m.posterTmdb m.poster,
    backdropUrl := m.backdrop,
    overview := pyOrStr m.overview m.synopsis,
    rating := m.rating,
    releaseDate := m.releaseDate,
    duration := m.duration,
    trailerUrl := m.trailer,
    showtimes := m.showtimes }

/-- The `movies` array written by `generate_json` (timestamps and the file
write are I/O, outside this embedding). -/
def serializeMovies (movies : List Movie) : List OutMovie := movies.map serializeMovie

/-- Strip a leading line numbering, `re.sub` with pattern `^\d+[\.\)]\s*`. -/
def stripNumbering (l : Str) : Str :=
  let ds := l.takeWhile Char.isDigit
  if ds.isEmpty then l
  else
    match l.drop ds.length with
    | c :: rest => if c = '.' ∨ c = ')' then rest.dropWhile isPySpace else l
    | [] => l

/-- Parse the AI response into cleaned titles: split the stripped text on
newlines, strip the numbering and surrounding whitespace of each line, and
keep the non-empty results in order. -/
def parseCleanedTitles (txt : Str) : List Str :=
  ((pySplit '\n' (pyStrip txt)).map (fun l => pyStrip (stripNumbering l))).filter
    (fun l => decide (¬ l.isEmpty))

/-- The index-aligned assignment loop
`for i, movie in enumerate(movies): ...` starting at index `i`. -/
def assignTitles (cleaned : List Str) (i : Nat) : List Movie → List Movie
  | [] => []
  | m :: rest =>
    { m with titleClean := some (if i < cleaned.length then cleaned.getD i [] else m.title) }
      :: assignTitles cleaned (i + 1) rest

/-- The pure core of `clean_titles_with_ai`: `resp` is the AI response text,
`none` when the call raised or every model failed, in which case the
`except` clause assigns every record its raw title and the run continues. -/
def cleanTitlesWithAI (resp : Option Str) (movies : List Movie) : List Movie :=
  if movies.isEmpty then movies
  else
    match resp with
    | none => movies.map (fun m => { m with titleClean := some m.title })
    | some txt => assignTitles (parseCleanedTitles txt) 0 movies

theorem posterStep_showtimes (n : Node) (m : Movie) :
    (posterStep n m).showtimes = m.showtimes := by
  unfold posterStep
  repeat' split
  all_goals rfl

theorem posterStep_synopsis (n : Node) (m : Movie) :
    (posterStep n m).synopsis = m.synopsis := by
  unfold posterStep
  repeat' split
  all_goals rfl

theorem timesStep_synopsis (t k : Str) (m : Movie) :
    (timesStep t k m).synopsis = m.synopsis := by
  unfold timesStep
  repeat' split
  all_goals rfl

theorem synopsisStep_showtimes (t : Str) (e : Bool) (m : Movie) :
    (synopsisStep t e m).1.showtimes = m.showtimes := by
  unfold synopsisStep
  repeat' split
  all_goals rfl

theorem durYearStep_showtimes (t : Str) (m : Movie) :
    (durYearStep t m).showtimes = m.showtimes := by
  unfold durYearStep
  repeat' split
  all_goals rfl

theorem durYearStep_synopsis (t : Str) (m : Movie) :
    (durYearStep t m).synopsis = m.synopsis := by
  unfold durYearStep
  repeat' split
  all_goals rfl

theorem trailerStep_showtimes (n : Node) (m : Movie) :
    (trailerStep n m).showtimes = m.showtimes := by
  unfold trailerStep
  repeat' split
  all_goals rfl

theorem trailerStep_synopsis (n : Node) (m : Movie) :
    (trailerStep n m).synopsis = m.synopsis := by
  unfold trailerStep
  repeat' split
  all_goals rfl

theorem absorbNode_movies (st : ParseState) (n : Node) (m : Movie) :
    (absorbNode st n m).movies = st.movies := rfl

theorem emitCurrent_mem {ms : List Movie} {cur : Option Movie} {m : Movie}
    (h : m ∈ emitCurrent ms cur) : m ∈ ms ∨ retain m = true := by
  cases cur with
  | none => exact Or.inl h
  | some c =>
    simp only [emitCurrent] at h
    by_cases hr : retain c = true
    · rw [if_pos hr] at h
      rcases List.mem_append.mp h with h1 | h2
      · exact Or.inl h1
      · simp at h2
        subst h2
        exact Or.inr hr
    · rw [if_neg hr] at h
      exact Or.inl h

theorem retain_spec {m : Movie} (h : retain m = true) :
    m.poster ≠ none ∧ m.showtimes ≠ [] := by
  unfold retain pyTruthy at h
  cases hp : m.poster with
  | none => rw [hp] at h; simp at h
  | some s =>
    rw [hp] at h
    simp at h
    exact ⟨by simp [hp], by simpa using h.2⟩

theorem foldl_processNode_inv (P : ParseState → Prop)
    (hstep : ∀ s n, P s → P (processNode s n)) :
    ∀ (ns : List Node) (s : ParseState), P s → P (List.foldl processNode s ns) := by
  intro ns
  induction ns with
  | nil => intro s h; exact h
  | cons n rest ih => intro s h; exact ih (processNode s n) (hstep s n h)

theorem processNode_retained (st : ParseState) (n : Node)
    (h : ∀ m ∈ st.movies, retain m = true) :
    ∀ m ∈ (processNode st n).movies, retain m = true := by
  unfold processNode
  split
  · exact h
  · split
    · intro m hm
      rcases emitCurrent_mem hm with h1 | h2
      · exact h m h1
      · exact h2
    · split
      · exact h
      · rw [absorbNode_movies]
        exact h

/-- Claim C1: for every input node sequence, a movie record appears in the
parser's output only if, at the end of its scan window (the qualifying
heading opening the next record, or end of input), its poster field is set
and its showtimes mapping is non-empty; a record missing either is never
emitted. -/
theorem c1_retention (nodes : List Node) (m : Movie) (hm : m ∈ parseMovies nodes) :
    m.poster ≠ none ∧ m.showtimes ≠ [] := by
  unfold parseMovies at hm
  have hinv := foldl_processNode_inv (fun st => ∀ m ∈ st.movies, retain m = true)
    processNode_retained nodes ⟨[], none, none, false⟩ (by intro m hm; simp at hm)
  rcases emitCurrent_mem hm with h1 | h2
  · exact retain_spec (hinv m h1)
  · exact retain_spec h2

/-- Witness for C1 at a concrete page fragment: the record parsed from it is
in the output and indeed has a poster and a showtime. -/
theorem c1_retention_witness :
    ({ title := "Wicked".data, poster := some ("p2.png".data),
       showtimes := [("Diario".data, ["22:30".data])], synopsis := none,
       duration := none, trailer := none } : Movie) ∈ parseMovies
      ([⟨some ("h2".data), "Wicked".data, [], []⟩,
        ⟨some ("p".data), "x".data, [⟨none, some ("p2.png".data)⟩], []⟩,
        ⟨some ("p".data), "Diario: 22.30".data, [], []⟩] : List Node)
    ∧ some ("p2.png".data) ≠ (none : Option Str) := by
  refine ⟨by decide, ?_⟩
  have h := c1_retention
    ([⟨some ("h2".data), "Wicked".data, [], []⟩,
      ⟨some ("p".data), "x".data, [⟨none, some ("p2.png".data)⟩], []⟩,
      ⟨some ("p".data), "Diario: 22.30".data, [], []⟩] : List Node)
    ({ title := "Wicked".data, poster := some ("p2.png".data),
       showtimes := [("Diario".data, ["22:30".data])], synopsis := none,
       duration := none, trailer := none } : Movie) (by decide)
  simpa using h.1

/-- Claim C4: the node sequence h2 with text Avatar 3, an image node exposing
source poster.jpg, and a text node Viernes 6: 17:00 20:00 yields exactly one
record, with that title, that poster, and showtimes mapping the day-key
Viernes 6 to the two times in order. -/
theorem c4_end_to_end :
    parseMovies
      ([⟨some ("h2".data), "Avatar 3".data, [], []⟩,
        ⟨some ("img".data), [], [⟨none, some ("poster.jpg".data)⟩], []⟩,
        ⟨some ("p".data), "Viernes 6: 17:00 20:00".data, [], []⟩] : List Node)
    = [{ title := "Avatar 3".data, poster := some ("poster.jpg".data),
         showtimes := [("Viernes 6".data, ["17:00".data, "20:00".data])],
         synopsis := none, duration := none, trailer := none }] := by
  decide

theorem pySplit_ne_nil (sep : Char) (s : Str) : pySplit sep s ≠ [] := by
  cases s with
  | nil => simp [pySplit]
  | cons c rest =>
    unfold pySplit
    split
    · simp
    · split
      · simp
      · simp

theorem pySplit_prepend (sep : Char) (a b : Str) (ha : ∀ c ∈ a, c ≠ sep) :
    pySplit sep (a ++ sep :: b) = a :: pySplit sep b := by
  induction a with
  | nil => simp [pySplit]
  | cons c a' ih =>
    have hc : c ≠ sep := ha c (by simp)
    have ih' := ih (fun x hx => ha x (by simp [hx]))
    simp only [List.cons_append, pySplit, if_neg hc, List.append_eq, ih']

theorem hourOf_prepend (a b : Str) (ha : ∀ c ∈ a, c ≠ ':') :
    hourOf (a ++ ':' :: b) = pyIntQ a := by
  unfold hourOf
  rw [pySplit_prepend ':' a b ha]
  cases hb : pySplit ':' b with
  | nil => exact absurd hb (pySplit_ne_nil ':' b)
  | cons x xs => rfl

theorem small_hour_facts (k : Nat) (h1 : 1 ≤ k) (h2 : k ≤ 11) :
    pyIntQ (natStr k) = some k ∧ pyIntQ (pad2 k) = some k ∧
    (∀ c ∈ natStr k, c ≠ ':') ∧ (∀ c ∈ pad2 k, c ≠ ':') := by
  interval_cases k <;> exact (by decide)

theorem rem12_eq_of_hour {t : Str} {hr : Nat} (hh : hourOf t = some hr) :
    rem12 t = if 13 ≤ hr ∧ hr ≤ 23 then
      [natStr (hr - 12) ++ ':' :: minOf t, pad2 (hr - 12) ++ ':' :: minOf t]
    else [] := by
  unfold rem12
  rw [hh]

theorem rem12_eq_of_none {t : Str} (hh : hourOf t = none) : rem12 t = [] := by
  unfold rem12
  rw [hh]

theorem rem12_mem_spec {t u : Str} (hu : u ∈ rem12 t) :
    ∃ h, hourOf t = some h ∧ 13 ≤ h ∧ h ≤ 23 ∧
      (u = natStr (h - 12) ++ ':' :: minOf t ∨ u = pad2 (h - 12) ++ ':' :: minOf t) := by
  cases hh : hourOf t with
  | none =>
    rw [rem12_eq_of_none hh] at hu
    simp at hu
  | some hr =>
    rw [rem12_eq_of_hour hh] at hu
    by_cases hcond : 13 ≤ hr ∧ hr ≤ 23
    · rw [if_pos hcond] at hu
      exact ⟨hr, rfl, hcond.1, hcond.2, by simpa using hu⟩
    · rw [if_neg hcond] at hu
      simp at hu

theorem not_mem_remAll {t : Str} {h : Nat} (ht : hourOf t = some h) (h13 : 13 ≤ h) :
    ∀ l : List Str, t ∉ remAll l := by
  intro l
  induction l with
  | nil => simp [remAll]
  | cons u' rest ih =>
    intro hmem
    rcases List.mem_append.mp hmem with hmem1 | hmem2
    · rcases rem12_mem_spec hmem1 with ⟨h', _, h13', h23', hcases⟩
      obtain ⟨f1, f2, f3, f4⟩ := small_hour_facts (h' - 12) (by omega) (by omega)
      rcases hcases with rfl | rfl
      · rw [hourOf_prepend _ _ f3, f1] at ht
        have : h' - 12 = h := by simpa using ht
        omega
      · rw [hourOf_prepend _ _ f4, f2] at ht
        have : h' - 12 = h := by simpa using ht
        omega
    · exact ih hmem2

theorem mem_remAll_of {t u : Str} {l : List Str} (ht : t ∈ l) (hu : u ∈ rem12 t) :
    u ∈ remAll l := by
  induction l with
  | nil => simp at ht
  | cons x rest ih =>
    rcases List.mem_cons.mp ht with rfl | hrest
    · exact List.mem_append.mpr (Or.inl hu)
    · exact List.mem_append.mpr (Or.inr (ih hrest))

theorem mem_dedup_iff {l : List Str} {t : Str} :
    t ∈ dedupTimes l ↔ t ∈ l ∧ t ∉ remAll l := by
  simp [dedupTimes, List.mem_filter]

theorem pairFree_dedup (l : List Str) :
    ∀ t ∈ dedupTimes l, ∀ u ∈ rem12 t, u ∉ dedupTimes l := by
  intro t ht u hu hcontra
  exact (mem_dedup_iff.mp hcontra).2 (mem_remAll_of (mem_dedup_iff.mp ht).1 hu)

/-- The per-record invariant of claim C2: every stored day-key list is free
of 24-hour/12-hour duplicate pairs. -/
def ShowInv (m : Movie) : Prop :=
  ∀ k ts, (k, ts) ∈ m.showtimes → ∀ t ∈ ts, ∀ u ∈ rem12 t, u ∉ ts

theorem showInv_of_eq {m m' : Movie} (he : m'.showtimes = m.showtimes)
    (h : ShowInv m) : ShowInv m' := by
  unfold ShowInv at *
  rw [he]
  exact h

theorem mem_dictSet {α : Type} (d : List (Str × α)) (k : Str) (v : α) :
    ∀ p ∈ dictSet d k v, p ∈ d ∨ p.2 = v := by
  induction d with
  | nil =>
    intro p hp
    simp [dictSet] at hp
    simp [hp]
  | cons e rest ih =>
    intro p hp
    unfold dictSet at hp
    rcases e with ⟨k', v'⟩
    split at hp
    · rcases List.mem_cons.mp hp with rfl | hrest
      · simp
      · exact Or.inl (List.mem_cons.mpr (Or.inr hrest))
    · rcases List.mem_cons.mp hp with rfl | hrest
      · exact Or.inl (List.mem_cons.mpr (Or.inl rfl))
      · rcases ih p hrest with h1 | h2
        · exact Or.inl (List.mem_cons.mpr (Or.inr h1))
        · exact Or.inr h2

theorem timesStep_showInv (t k : Str) (m : Movie) (h : ShowInv m) :
    ShowInv (timesStep t k m) := by
  unfold timesStep
  split
  · exact h
  · intro k' ts' hmem
    rcases mem_dictSet _ _ _ _ hmem with h1 | h2
    · exact h k' ts' h1
    · simp only at h2
      subst h2
      exact pairFree_dedup _

theorem emitCurrent_mem2 {ms : List Movie} {cur : Option Movie} {m : Movie}
    (h : m ∈ emitCurrent ms cur) : m ∈ ms ∨ cur = some m := by
  cases cur with
  | none => exact Or.inl h
  | some c =>
    simp only [emitCurrent] at h
    split at h
    · rcases List.mem_append.mp h with h1 | h2
      · exact Or.inl h1
      · simp at h2
        subst h2
        exact Or.inr rfl
    · exact Or.inl h

/-- The full-state invariant for C2. -/
def StateShowInv (st : ParseState) : Prop :=
  (∀ m ∈ st.movies, ShowInv m) ∧ (∀ m, st.current = some m → ShowInv m)

theorem processNode_showInv (st : ParseState) (n : Node) (h : StateShowInv st) :
    StateShowInv (processNode st n) := by
  unfold processNode
  split
  · exact h
  · split
    · constructor
      · intro m hm
        rcases emitCurrent_mem2 hm with h1 | h2
        · exact h.1 m h1
        · exact h.2 m h2
      · intro m hm
        simp at hm
        subst hm
        intro k ts hmem
        simp [newMovie] at hmem
    · split
      · exact h
      · rename_i m0 heq
        constructor
        · intro m hm
          rw [absorbNode_movies] at hm
          exact h.1 m hm
        · intro m hm
          simp only [absorbNode] at hm
          have hm0 : ShowInv m0 := h.2 m0 heq
          have h1 : ShowInv (posterStep n m0) :=
            showInv_of_eq (posterStep_showtimes n m0) hm0
          have h2 : ShowInv (timesStep (normSpaces n.text)
              (resolveDayKey (dayStep (normSpaces n.text) st.currentDay))
              (posterStep n m0)) := timesStep_showInv _ _ _ h1
          have h3 : ShowInv (synopsisStep (normSpaces n.text) st.expectingSynopsis
              (timesStep (normSpaces n.text)
                (resolveDayKey (dayStep (normSpaces n.text) st.currentDay))
                (posterStep n m0))).1 :=
            showInv_of_eq (synopsisStep_showtimes _ _ _) h2
          have h4 := showInv_of_eq (durYearStep_showtimes (normSpaces n.text) _) h3
          have h5 := showInv_of_eq (trailerStep_showtimes n _) h4
          have : some _ = some m := hm
          injection this with hthis
          exact hthis ▸ h5

/-- Claim C2: in every day-key time list produced by the parser, a 24-hour
time with hour between 13 and 23 and its 12-hour-clock equivalent (unpadded
or zero-padded) are never both present; and whichever order the two forms
entered the accumulated list, the dedup filter keeps the 24-hour form and
drops the 12-hour forms. -/
theorem c2_time_dedup :
    (∀ (nodes : List Node), ∀ m ∈ parseMovies nodes, ∀ k ts,
        (k, ts) ∈ m.showtimes → ∀ t ∈ ts, ∀ u ∈ rem12 t, u ∉ ts)
  ∧ (∀ (l : List Str) (t : Str) (h : Nat), t ∈ l → hourOf t = some h →
        13 ≤ h → h ≤ 23 → t ∈ dedupTimes l ∧ ∀ u ∈ rem12 t, u ∉ dedupTimes l) := by
  constructor
  · intro nodes m hm
    unfold parseMovies at hm
    have hinv := foldl_processNode_inv StateShowInv processNode_showInv nodes
      ⟨[], none, none, false⟩ (by constructor <;> simp [StateShowInv, ShowInv])
    rcases emitCurrent_mem2 hm with h1 | h2
    · exact hinv.1 m h1
    · exact hinv.2 m h2
  · intro l t h ht hh h13 h23
    constructor
    · exact mem_dedup_iff.mpr ⟨ht, not_mem_remAll hh h13 l⟩
    · intro u hu hcontra
      exact (mem_dedup_iff.mp hcontra).2 (mem_remAll_of ht hu)

/-- Witness for C2: in the record parsed from a day line carrying both 5:00
and 17:00, the surviving list keeps 17:00 and has dropped 5:00; and the
dedup filter on the raw accumulated list retains the 24-hour form. -/
theorem c2_time_dedup_witness :
    ("5:00".data ∉ ["17:00".data])
    ∧ "17:00".data ∈ dedupTimes ["5:00".data, "17:00".data] := by
  constructor
  · exact c2_time_dedup.1
      ([⟨some ("h2".data), "Dune".data, [], []⟩,
        ⟨some ("p".data), "x".data, [⟨none, some ("p2.png".data)⟩], []⟩,
        ⟨some ("p".data), "Lunes 3: 5:00 17:00".data, [], []⟩] : List Node)
      ({ title := "Dune".data, poster := some ("p2.png".data),
         showtimes := [("Lunes 3".data, ["17:00".data])], synopsis := none,
         duration := none, trailer := none } : Movie)
      (by decide) ("Lunes 3".data) (["17:00".data]) (by decide)
      ("17:00".data) (by decide) ("5:00".data) (by decide)
  · exact (c2_time_dedup.2 ["5:00".data, "17:00".data] ("17:00".data) 17 (by decide)
      (by decide) (by decide) (by decide)).1

theorem dateLt_asymm {a b : DateVal} (h : dateLt a b = true) : dateLt b a = false := by
  simp [dateLt] at *
  omega

theorem dateLt_false_trans {x y z : DateVal} (h1 : dateLt x y = false)
    (h2 : dateLt y z = false) : dateLt x z = false := by
  simp [dateLt] at *
  omega

theorem insertKey_perm (ny : Nat) (k : Str) (l : List Str) :
    (insertKey ny k l).Perm (k :: l) := by
  induction l with
  | nil => exact List.Perm.refl _
  | cons x xs ih =>
    unfold insertKey
    split
    · exact (ih.cons x).trans (List.Perm.swap k x xs)
    · exact List.Perm.refl _

theorem sortKeys_perm (ny : Nat) (l : List Str) : (sortKeys ny l).Perm l := by
  induction l with
  | nil => exact List.Perm.refl _
  | cons k ks ih => exact (insertKey_perm ny k (sortKeys ny ks)).trans (ih.cons k)

/-- The sortedness relation on day-keys: the later key is not strictly
earlier than the earlier one. -/
def KeyLe (ny : Nat) (a b : Str) : Prop :=
  dateLt (parseSpanishDate ny b) (parseSpanishDate ny a) = false

theorem insertKey_pairwise (ny : Nat) (k : Str) (l : List Str)
    (h : l.Pairwise (KeyLe ny)) : (insertKey ny k l).Pairwise (KeyLe ny) := by
  induction l with
  | nil => simp [insertKey]
  | cons x xs ih =>
    rcases List.pairwise_cons.mp h with ⟨hx, hxs⟩
    unfold insertKey
    split
    · rename_i hlt
      refine List.pairwise_cons.mpr ⟨?_, ih hxs⟩
      intro y hy
      rcases List.mem_cons.mp ((insertKey_perm ny k xs).mem_iff.mp hy) with rfl | hyxs
      · exact dateLt_asymm hlt
      · exact hx y hyxs
    · rename_i hnlt
      have hxk : dateLt (parseSpanishDate ny x) (parseSpanishDate ny k) = false := by
        simpa using hnlt
      refine List.pairwise_cons.mpr ⟨?_, h⟩
      intro y hy
      rcases List.mem_cons.mp hy with rfl | hyxs
      · exact hxk
      · exact dateLt_false_trans (hx y hyxs) hxk

theorem sortKeys_pairwise (ny : Nat) (l : List Str) :
    (sortKeys ny l).Pairwise (KeyLe ny) := by
  induction l with
  | nil => simp [sortKeys]
  | cons k ks ih => exact insertKey_pairwise ny k (sortKeys ny ks) ih

theorem dictGet?_map_keys {α : Type} (f : Str → α) (ks : List Str) (k : Str) :
    dictGet? (ks.map (fun x => (x, f x))) k = if k ∈ ks then some (f k) else none := by
  induction ks with
  | nil => simp [dictGet?]
  | cons x xs ih =>
    simp only [List.map_cons, dictGet?]
    by_cases hx : x = k
    · subst hx
      simp
    · rw [if_neg hx, ih]
      by_cases hk : k ∈ xs
      · rw [if_pos hk, if_pos (List.mem_cons.mpr (Or.inr hk))]
      · rw [if_neg hk, if_neg]
        intro hc
        rcases List.mem_cons.mp hc with h1 | h2
        · exact hx h1.symm
        · exact hk h2

theorem dictGet?_none_of_not_mem {α : Type} (d : List (Str × α)) (k : Str) :
    k ∉ d.map Prod.fst → dictGet? d k = none := by
  induction d with
  | nil => intro _; rfl
  | cons e rest ih =>
    intro h
    rcases e with ⟨k', v'⟩
    have hne : k' ≠ k := fun hc => h (List.mem_cons.mpr (Or.inl hc.symm))
    have hrest : k ∉ rest.map Prod.fst := fun hc => h (List.mem_cons.mpr (Or.inr hc))
    simp only [dictGet?, if_neg hne]
    exact ih hrest

theorem dictGet?_of_mem_keys {α : Type} (d : List (Str × α)) (k : Str) (dflt : α) :
    k ∈ d.map Prod.fst → dictGet? d k = some (dictGetD d k dflt) := by
  induction d with
  | nil => intro h; simp at h
  | cons e rest ih =>
    intro h
    rcases e with ⟨k', v'⟩
    by_cases hk : k' = k
    · subst hk
      simp [dictGet?, dictGetD]
    · have h' : k ∈ rest.map Prod.fst := by
        rcases List.mem_cons.mp h with h1 | h2
        · exact absurd h1.symm hk
        · exact h2
      simp only [dictGet?, dictGetD, if_neg hk]
      exact ih h'

theorem sortShowtimesMap_get? (ny : Nat) (d : List (Str × List Str)) (k : Str) :
    dictGet? (sortShowtimesMap ny d) k = dictGet? d k := by
  unfold sortShowtimesMap
  rw [dictGet?_map_keys]
  by_cases hk : k ∈ sortKeys ny (d.map Prod.fst)
  · rw [if_pos hk]
    exact (dictGet?_of_mem_keys d k [] ((sortKeys_perm ny _).mem_iff.mp hk)).symm
  · rw [if_neg hk]
    exact (dictGet?_none_of_not_mem d k
      (fun h => hk ((sortKeys_perm ny _).mem_iff.mpr h))).symm

theorem daysInMonth_le_31 (y m : Nat) : daysInMonth y m ≤ 31 := by
  unfold daysInMonth
  repeat' split
  all_goals omega

theorem mkDateVal_lt_max {y m d : Nat} (h : mkDateVal y m d ≠ dtMax) :
    dateLt (mkDateVal y m d) dtMax = true := by
  unfold mkDateVal at h ⊢
  split at h
  · rename_i hcond
    rw [if_pos hcond]
    have h31 : daysInMonth y m ≤ 31 := daysInMonth_le_31 y m
    simp [dateLt, dtMax]
    omega
  · exact absurd rfl h

/-- Counterexample to claim C3 as stated: the key Horarios has no numeric
day token, yet `parse_spanish_date` raises nothing for it — it falls back to
day 1, month 1 of the current year instead of the maximal value, and
therefore sorts before a parseable February key, not after it. -/
theorem c3_counterexample :
    parseSpanishDate 2026 ("Horarios".data) ≠ dtMax
  ∧ sortShowtimesMap 2026
      [("Viernes 6 de febrero".data, ["20:00".data]), ("Horarios".data, ["17:00".data])]
    = [("Horarios".data, ["17:00".data]), ("Viernes 6 de febrero".data, ["20:00".data])] := by
  constructor
  · decide
  · decide

/-- Claim C3 as amended: a key whose inferred year/month/day triple is
invalid for `datetime` (for example Del 40, whose day token 40 exceeds every
month length) receives the maximal sort value; every key whose date
construction succeeds compares strictly below that maximal value; and the
sorter orders keys ascending by their sort value, so the error-fallback keys
sort after all constructible ones.  A key with no numeric day token does not
raise: it defaults to day 1 (and month 1 without a month name) of the
current year and sorts by that date. -/
theorem c3_unparseable_last (ny : Nat) (keys : List Str) :
    parseSpanishDate ny ("Del 40".data) = dtMax
  ∧ (∀ k : Str, parseSpanishDate ny k ≠ dtMax →
      dateLt (parseSpanishDate ny k) dtMax = true)
  ∧ (sortKeys ny keys).Pairwise
      (fun a b => dateLt (parseSpanishDate ny b) (parseSpanishDate ny a) = false) := by
  refine ⟨?_, ?_, sortKeys_pairwise ny keys⟩
  · have h0 : parseSpanishDate ny ("Del 40".data) = mkDateVal ny 1 40 := rfl
    rw [h0]
    unfold mkDateVal
    rw [if_neg]
    intro hcond
    have : daysInMonth ny 1 = 31 := by simp [daysInMonth]
    omega
  · intro k hk
    unfold parseSpanishDate at hk ⊢
    exact mkDateVal_lt_max hk

/-- Witness for C3 (amended): at year 2026, the parseable key sorts strictly
before the maximal value, and Del 40 receives the maximal value. -/
theorem c3_unparseable_last_witness :
    dateLt (parseSpanishDate 2026 ("Viernes 6 de febrero".data)) dtMax = true
  ∧ parseSpanishDate 2026 ("Del 40".data) = dtMax := by
  constructor
  · exact (c3_unparseable_last 2026 []).2.1 ("Viernes 6 de febrero".data) (by decide)
  · exact (c3_unparseable_last 2026 []).1

theorem feb_ge_28 (y : Nat) : 28 ≤ daysInMonth y 2 := by
  unfold daysInMonth
  simp [isLeap]
  split
  all_goals omega

/-- Claim C5: the showtime sorter returns each record's mapping with the
keys reordered ascending by inferred date (a permutation of the original
keys) and every key still bound to its unchanged time list; the concrete
pair of keys Sábado 7 de febrero and Viernes 6 de febrero comes out
Viernes-first. -/
theorem c5_sorter (ny : Nat) (h1 : 1 ≤ ny) (h2 : ny ≤ 9999) :
    (∀ (movies : List Movie) (m : Movie), m ∈ movies →
        { m with showtimes := sortShowtimesMap ny m.showtimes } ∈ sortShowtimes ny movies)
  ∧ (∀ d : List (Str × List Str),
        ((sortShowtimesMap ny d).map Prod.fst).Perm (d.map Prod.fst)
      ∧ ((sortShowtimesMap ny d).map Prod.fst).Pairwise
          (fun a b => dateLt (parseSpanishDate ny b) (parseSpanishDate ny a) = false)
      ∧ (∀ k, dictGet? (sortShowtimesMap ny d) k = dictGet? d k))
  ∧ sortShowtimesMap ny
      [("Sábado 7 de febrero".data, ["17:00".data]),
       ("Viernes 6 de febrero".data, ["20:00".data])]
    = [("Viernes 6 de febrero".data, ["20:00".data]),
       ("Sábado 7 de febrero".data, ["17:00".data])] := by
  refine ⟨?_, ?_, ?_⟩
  · intro movies m hm
    unfold sortShowtimes
    refine List.mem_map.mpr ⟨m, hm, ?_⟩
    by_cases he : m.showtimes.isEmpty
    · rw [if_pos he]
      have hnil : m.showtimes = [] := List.isEmpty_iff.mp he
      rcases m with ⟨t, p, st, sy, du, tr, yr, tc, pt, bk, ov, ra, rd⟩
      simp at hnil
      subst hnil
      rfl
    · rw [if_neg he]
  · intro d
    refine ⟨?_, ?_, fun k => sortShowtimesMap_get? ny d k⟩
    · unfold sortShowtimesMap
      have hmapfst : ((sortKeys ny (d.map Prod.fst)).map
          (fun k => (k, dictGetD d k []))).map Prod.fst = sortKeys ny (d.map Prod.fst) := by
        rw [List.map_map]
        exact List.map_id'' (fun x => rfl) _
      rw [hmapfst]
      exact sortKeys_perm ny _
    · unfold sortShowtimesMap
      have hmapfst : ((sortKeys ny (d.map Prod.fst)).map
          (fun k => (k, dictGetD d k []))).map Prod.fst = sortKeys ny (d.map Prod.fst) := by
        rw [List.map_map]
        exact List.map_id'' (fun x => rfl) _
      rw [hmapfst]
      exact sortKeys_pairwise ny _
  · have hv : parseSpanishDate ny ("Viernes 6 de febrero".data) = mkDateVal ny 2 6 := rfl
    have hs : parseSpanishDate ny ("Sábado 7 de febrero".data) = mkDateVal ny 2 7 := rfl
    have hfeb := feb_ge_28 ny
    have hv' : parseSpanishDate ny ("Viernes 6 de febrero".data) = ⟨ny, 2, 6, 0⟩ := by
      rw [hv]
      unfold mkDateVal
      rw [if_pos]
      exact ⟨h1, h2, by omega, by omega, by omega, by omega⟩
    have hs' : parseSpanishDate ny ("Sábado 7 de febrero".data) = ⟨ny, 2, 7, 0⟩ := by
      rw [hs]
      unfold mkDateVal
      rw [if_pos]
      exact ⟨h1, h2, by omega, by omega, by omega, by omega⟩
    have hlt : dateLt (parseSpanishDate ny ("Viernes 6 de febrero".data))
        (parseSpanishDate ny ("Sábado 7 de febrero".data)) = true := by
      rw [hv', hs']
      simp [dateLt]
    unfold sortShowtimesMap
    have hkeys : sortKeys ny
        ([("Sábado 7 de febrero".data, ["17:00".data]),
          ("Viernes 6 de febrero".data, ["20:00".data])].map Prod.fst)
        = ["Viernes 6 de febrero".data, "Sábado 7 de febrero".data] := by
      show insertKey ny ("Sábado 7 de febrero".data)
        (insertKey ny ("Viernes 6 de febrero".data) []) = _
      show insertKey ny ("Sábado 7 de febrero".data) ["Viernes 6 de febrero".data] = _
      unfold insertKey
      rw [if_pos hlt]
      rfl
    rw [hkeys]
    decide

/-- Witness for C5 at the current year 2026: the concrete two-key mapping
comes back Viernes-first with the time lists untouched. -/
theorem c5_sorter_witness :
    sortShowtimesMap 2026
      [("Sábado 7 de febrero".data, ["17:00".data]),
       ("Viernes 6 de febrero".data, ["20:00".data])]
    = [("Viernes 6 de febrero".data, ["20:00".data]),
       ("Sábado 7 de febrero".data, ["17:00".data])] :=
  (c5_sorter 2026 (by decide) (by decide)).2.2

theorem processNode_absorb {st : ParseState} {n : Node} {m : Movie}
    (hcur : st.current = some m) (hname : n.name ≠ none) (hnt : isNewTitle n = false) :
    processNode st n = absorbNode st n m := by
  unfold processNode
  rw [if_neg hname, if_neg (by simp [hnt]), hcur]

theorem absorbNode_current (st : ParseState) (n : Node) (m : Movie) :
    (absorbNode st n m).current = some (trailerStep n (durYearStep (normSpaces n.text)
      (synopsisStep (normSpaces n.text) st.expectingSynopsis
        (timesStep (normSpaces n.text)
          (resolveDayKey (dayStep (normSpaces n.text) st.currentDay))
          (posterStep n m))).1)) := rfl

theorem absorbNode_expecting (st : ParseState) (n : Node) (m : Movie) :
    (absorbNode st n m).expectingSynopsis
    = (synopsisStep (normSpaces n.text) st.expectingSynopsis
        (timesStep (normSpaces n.text)
          (resolveDayKey (dayStep (normSpaces n.text) st.currentDay))
          (posterStep n m))).2 := rfl

theorem absorbNode_day (st : ParseState) (n : Node) (m : Movie) :
    (absorbNode st n m).currentDay = dayStep (normSpaces n.text) st.currentDay := rfl

theorem synopsisStep_label (text : Str) (m : Movie) (hsy : m.synopsis = none)
    (hlen : text.length > 10) (hlab : hasLabel text = true) :
    (¬ text.length < 30 →
      synopsisStep text false m
        = ({ m with synopsis := some (pyStrip (subLabel text)) }, false))
  ∧ (text.length < 30 → synopsisStep text false m = (m, true)) := by
  unfold synopsisStep
  rw [if_pos hsy, if_neg (by simp), if_pos ⟨hlen, hlab⟩]
  constructor
  · intro h30
    rw [if_neg h30]
  · intro h30
    rw [if_pos h30]

/-- Counterexample to claim C6 as stated: capture does not leave the rest of
the text intact — the label-deletion is global, so a second occurrence of
sinopsis inside the body is deleted too, and the captured synopsis differs
from the text with only the leading label stripped. -/
theorem c6_counterexample :
    ((processNode (⟨[], some (newMovie ("Dune".data)), none, false⟩ : ParseState)
        (⟨some ("p".data),
          "SINOPSIS: Esta es la sinopsis de la película.".data, [], []⟩ : Node)).current.map
      Movie.synopsis)
    = some (some ("Esta es la de la película.".data))
  ∧ "Esta es la de la película.".data ≠ "Esta es la sinopsis de la película.".data := by
  constructor
  · decide
  · decide

/-- Claim C6 as amended: while a record is open, has no synopsis yet and the
expecting-synopsis flag is clear, a node whose text has length above 10 and
whose uppercased form contains ARGUMENTO or SINOPSIS captures, when the
length is at least 30, the synopsis from that same text by deleting every
occurrence of either label together with the whitespace/colons following it
and trimming the result; when the length is below 30 the node only sets the
expecting-synopsis flag. -/
theorem c6_synopsis_same_node (st : ParseState) (n : Node) (m : Movie) (nm : Str)
    (hcur : st.current = some m) (hsy : m.synopsis = none)
    (hexp : st.expectingSynopsis = false)
    (hname : n.name = some nm) (hnt : isNewTitle n = false)
    (hlen : (normSpaces n.text).length > 10)
    (hlab : hasLabel (normSpaces n.text) = true) :
    (¬ (normSpaces n.text).length < 30 →
      ∃ m2, (processNode st n).current = some m2
        ∧ m2.synopsis = some (pyStrip (subLabel (normSpaces n.text)))
        ∧ (processNode st n).expectingSynopsis = false)
  ∧ ((normSpaces n.text).length < 30 →
      ∃ m2, (processNode st n).current = some m2
        ∧ m2.synopsis = none
        ∧ (processNode st n).expectingSynopsis = true) := by
  have hname' : n.name ≠ none := by rw [hname]; simp
  have habs := processNode_absorb hcur hname' hnt
  have hm2sy : (timesStep (normSpaces n.text)
      (resolveDayKey (dayStep (normSpaces n.text) st.currentDay))
      (posterStep n m)).synopsis = none := by
    rw [timesStep_synopsis, posterStep_synopsis]
    exact hsy
  have hpair := synopsisStep_label (normSpaces n.text) _ hm2sy hlen hlab
  constructor
  · intro h30
    refine ⟨trailerStep n (durYearStep (normSpaces n.text)
        ({ timesStep (normSpaces n.text)
            (resolveDayKey (dayStep (normSpaces n.text) st.currentDay))
            (posterStep n m) with
          synopsis := some (pyStrip (subLabel (normSpaces n.text))) })), ?_, ?_, ?_⟩
    · rw [habs, absorbNode_current, hexp, hpair.1 h30]
    · rw [trailerStep_synopsis, durYearStep_synopsis]
    · rw [habs, absorbNode_expecting, hexp, hpair.1 h30]
  · intro h30
    refine ⟨trailerStep n (durYearStep (normSpaces n.text)
        (timesStep (normSpaces n.text)
          (resolveDayKey (dayStep (normSpaces n.text) st.currentDay))
          (posterStep n m))), ?_, ?_, ?_⟩
    · rw [habs, absorbNode_current, hexp, hpair.2 h30]
    · rw [trailerStep_synopsis, durYearStep_synopsis]
      exact hm2sy
    · rw [habs, absorbNode_expecting, hexp, hpair.2 h30]

/-- Witness for C6 (amended) at a concrete open record and label paragraph. -/
theorem c6_synopsis_same_node_witness :
    ∃ m2, (processNode
        (⟨[], some (newMovie ("Gladiator".data)), none, false⟩ : ParseState)
        (⟨some ("p".data),
          "ARGUMENTO: Un general romano busca venganza tras la caída.".data,
          [], []⟩ : Node)).current = some m2
      ∧ m2.synopsis = some (pyStrip (subLabel (normSpaces
          "ARGUMENTO: Un general romano busca venganza tras la caída.".data)))
      ∧ (processNode
        (⟨[], some (newMovie ("Gladiator".data)), none, false⟩ : ParseState)
        (⟨some ("p".data),
          "ARGUMENTO: Un general romano busca venganza tras la caída.".data,
          [], []⟩ : Node)).expectingSynopsis = false :=
  (c6_synopsis_same_node
    (⟨[], some (newMovie ("Gladiator".data)), none, false⟩ : ParseState)
    (⟨some ("p".data),
      "ARGUMENTO: Un general romano busca venganza tras la caída.".data,
      [], []⟩ : Node)
    (newMovie ("Gladiator".data)) ("p".data)
    rfl rfl rfl rfl (by decide) (by decide) (by decide)).1 (by decide)

theorem dictGet?_set_self {α : Type} (d : List (Str × α)) (k : Str) (v : α) :
    dictGet? (dictSet d k v) k = some v := by
  induction d with
  | nil => simp [dictSet, dictGet?]
  | cons e rest ih =>
    rcases e with ⟨k', v'⟩
    unfold dictSet
    by_cases hk : k' = k
    · rw [if_pos hk]
      simp [dictGet?, hk]
    · rw [if_neg hk]
      simp only [dictGet?, if_neg hk]
      exact ih

theorem dictGet?_set_ne {α : Type} (d : List (Str × α)) (k : Str) (v : α) (k2 : Str)
    (h : k2 ≠ k) : dictGet? (dictSet d k v) k2 = dictGet? d k2 := by
  induction d with
  | nil =>
    simp only [dictSet, dictGet?]
    rw [if_neg (fun hc => h hc.symm)]
  | cons e rest ih =>
    rcases e with ⟨k', v'⟩
    unfold dictSet
    by_cases hk : k' = k
    · rw [if_pos hk]
      subst hk
      have : k' ≠ k2 := fun hc => h hc.symm
      simp [dictGet?, this]
    · rw [if_neg hk]
      simp only [dictGet?]
      by_cases hk2 : k' = k2
      · rw [if_pos hk2, if_pos hk2]
      · rw [if_neg hk2, if_neg hk2]
        exact ih

theorem timesStep_showtimes_eq (text dayKey : Str) (m : Movie)
    (h : findTimes text ≠ []) :
    (timesStep text dayKey m).showtimes
    = dictSet m.showtimes dayKey
        (dedupTimes (addTimes (dictGetD m.showtimes dayKey []) (findTimes text))) := by
  unfold timesStep
  rw [if_neg h]

theorem isNewTitle_name {n : Node} (h : isNewTitle n = true) : n.name = some ("h2".data) := by
  unfold isNewTitle at h
  rcases Bool.and_eq_true_iff.mp h with ⟨h1, _⟩
  rcases Bool.and_eq_true_iff.mp h1 with ⟨h2, _⟩
  exact eq_of_beq h2

/-- Claim C7: while a record is open with an accepted, truthy day-context
label, a node whose text is accepted as a new day-context line overwrites
the context; a node with no accepted day-context line keeps the context, and
when it contains times they are attached under that persisting day-key (the
other keys unchanged); a qualifying heading closes the record and clears the
context. -/
theorem c7_day_context (st : ParseState) (n : Node) (m : Movie) (d nm : Str)
    (hcur : st.current = some m) (hday : st.currentDay = some d) (hd : d ≠ [])
    (hname : n.name = some nm) (hnt : isNewTitle n = false) :
    (∀ c, dayAccepted (normSpaces n.text) = some c →
        (processNode st n).currentDay = some c)
  ∧ (dayAccepted (normSpaces n.text) = none →
        (processNode st n).currentDay = some d
      ∧ (findTimes (normSpaces n.text) ≠ [] →
          ∃ m2, (processNode st n).current = some m2
          ∧ dictGet? m2.showtimes d
            = some (dedupTimes (addTimes (dictGetD m.showtimes d [])
                (findTimes (normSpaces n.text))))
          ∧ ∀ k, k ≠ d → dictGet? m2.showtimes k = dictGet? m.showtimes k))
  ∧ (∀ n2 : Node, isNewTitle n2 = true → (processNode st n2).currentDay = none) := by
  have hname' : n.name ≠ none := by rw [hname]; simp
  have habs := processNode_absorb hcur hname' hnt
  refine ⟨?_, ?_, ?_⟩
  · intro c hc
    rw [habs, absorbNode_day]
    unfold dayStep
    rw [hc]
  · intro hno
    have hdaystep : dayStep (normSpaces n.text) st.currentDay = some d := by
      unfold dayStep
      rw [hno, hday]
    constructor
    · rw [habs, absorbNode_day, hdaystep]
    · intro htimes
      have hkey : resolveDayKey (dayStep (normSpaces n.text) st.currentDay) = d := by
        rw [hdaystep]
        show (if d.isEmpty = true then ("Horarios".data) else d) = d
        rw [if_neg (by simp [hd])]
      refine ⟨trailerStep n (durYearStep (normSpaces n.text)
          (synopsisStep (normSpaces n.text) st.expectingSynopsis
            (timesStep (normSpaces n.text)
              (resolveDayKey (dayStep (normSpaces n.text) st.currentDay))
              (posterStep n m))).1), ?_, ?_, ?_⟩
      · rw [habs, absorbNode_current]
      · rw [trailerStep_showtimes, durYearStep_showtimes, synopsisStep_showtimes, hkey,
          timesStep_showtimes_eq _ _ _ htimes, posterStep_showtimes]
        exact dictGet?_set_self _ _ _
      · intro k hk
        rw [trailerStep_showtimes, durYearStep_showtimes, synopsisStep_showtimes, hkey,
          timesStep_showtimes_eq _ _ _ htimes, posterStep_showtimes]
        exact dictGet?_set_ne _ _ _ _ hk
  · intro n2 h2
    have hn2 : n2.name ≠ none := by rw [isNewTitle_name h2]; simp
    unfold processNode
    rw [if_neg hn2, if_pos h2]

/-- The concrete open record for the C7 witness. -/
def c7wMovie : Movie :=
  { title := "Dune".data, poster := some ("p.jpg".data),
    showtimes := [("Lunes 3".data, ["17:00".data])], synopsis := none,
    duration := none, trailer := none }

/-- The concrete scan state for the C7 witness. -/
def c7wState : ParseState := ⟨[], some c7wMovie, some ("Lunes 3".data), false⟩

/-- The concrete time-only node for the C7 witness. -/
def c7wNode : Node := ⟨some ("p".data), "Pases: 19:30".data, [], []⟩

/-- Witness for C7: with day-context Lunes 3 open, a time-only line keeps
the context and lands its time under that key. -/
theorem c7_day_context_witness :
    (processNode c7wState c7wNode).currentDay = some ("Lunes 3".data)
  ∧ (findTimes (normSpaces ("Pases: 19:30".data)) ≠ [] →
      ∃ m2, (processNode c7wState c7wNode).current = some m2
      ∧ dictGet? m2.showtimes ("Lunes 3".data)
        = some (dedupTimes (addTimes
            (dictGetD c7wMovie.showtimes ("Lunes 3".data) [])
            (findTimes (normSpaces ("Pases: 19:30".data)))))
      ∧ ∀ k, k ≠ "Lunes 3".data →
          dictGet? m2.showtimes k = dictGet? c7wMovie.showtimes k) :=
  (c7_day_context c7wState c7wNode c7wMovie ("Lunes 3".data) ("p".data)
    rfl rfl (by decide) rfl (by decide)).2.1 (by decide)

theorem pyOrStr_some {p : Str} (b : Option Str) (h : p ≠ []) :
    pyOrStr (some p) b = some p := by
  simp [pyOrStr, pyTruthy, h]

theorem pyOrStr_none (b : Option Str) : pyOrStr none b = b := by
  simp [pyOrStr, pyTruthy]

/-- Claim C8: when the title normalization fails entirely (the AI call
raised or every model failed, modelled as a `none` response), every record's
cleaned title is assigned its raw scraped title, and the run continues: the
later sorting and serialization stages still run and emit the raw titles. -/
theorem c8_title_fallback (ny : Nat) (movies : List Movie) :
    cleanTitlesWithAI none movies
      = movies.map (fun m => { m with titleClean := some m.title })
  ∧ (serializeMovies (sortShowtimes ny (cleanTitlesWithAI none movies))).map
      OutMovie.title = movies.map Movie.title := by
  have h1 : cleanTitlesWithAI none movies
      = movies.map (fun m => { m with titleClean := some m.title }) := by
    unfold cleanTitlesWithAI
    by_cases he : movies.isEmpty = true
    · rw [if_pos he]
      have hnil : movies = [] := List.isEmpty_iff.mp he
      rw [hnil]
      rfl
    · rw [if_neg he]
  refine ⟨h1, ?_⟩
  rw [h1]
  unfold serializeMovies sortShowtimes
  rw [List.map_map, List.map_map, List.map_map]
  apply List.map_congr_left
  intro m _
  simp only [Function.comp]
  by_cases he : ({ m with titleClean := some m.title } : Movie).showtimes.isEmpty = true
  · rw [if_pos he]
    simp [serializeMovie]
  · rw [if_neg he]
    simp [serializeMovie]

/-- Claim C9: in the serialized record, the poster URL is the TMDB poster
whenever one was merged and otherwise the scraped poster, and the overview
is the TMDB overview whenever present and otherwise the scraped synopsis
(absent when neither exists); a scraped value is never preferred over an
available enriched one. -/
theorem c9_enriched_precedence (m : Movie) :
    (∀ p, m.posterTmdb = some p → p ≠ [] → (serializeMovie m).posterUrl = some p)
  ∧ (m.posterTmdb = none → (serializeMovie m).posterUrl = m.poster)
  ∧ (∀ o, m.overview = some o → o ≠ [] → (serializeMovie m).overview = some o)
  ∧ (m.overview = none → (serializeMovie m).overview = m.synopsis) := by
  refine ⟨?_, ?_, ?_, ?_⟩
  · intro p hp hne
    show pyOrStr m.posterTmdb m.poster = some p
    rw [hp]
    exact pyOrStr_some _ hne
  · intro hp
    show pyOrStr m.posterTmdb m.poster = m.poster
    rw [hp]
    exact pyOrStr_none _
  · intro o ho hne
    show pyOrStr m.overview m.synopsis = some o
    rw [ho]
    exact pyOrStr_some _ hne
  · intro ho
    show pyOrStr m.overview m.synopsis = m.synopsis
    rw [ho]
    exact pyOrStr_none _

/-- The concrete enriched record for the C9 witness: TMDB poster present,
no TMDB overview, scraped synopsis present. -/
def c9wMovie : Movie :=
  { title := "Dune".data, poster := some ("scraped.jpg".data),
    showtimes := [("Diario".data, ["20:00".data])],
    synopsis := some ("Una historia local.".data),
    duration := none, trailer := none,
    posterTmdb := some ("tmdb.jpg".data) }

/-- Witness for C9: the merged TMDB poster wins over the scraped poster, and
with no TMDB overview the scraped synopsis is used. -/
theorem c9_enriched_precedence_witness :
    (serializeMovie c9wMovie).posterUrl = some ("tmdb.jpg".data)
  ∧ (serializeMovie c9wMovie).overview = c9wMovie.synopsis := by
  constructor
  · exact (c9_enriched_precedence c9wMovie).1 ("tmdb.jpg".data) rfl (by decide)
  · exact (c9_enriched_precedence c9wMovie).2.2.2 rfl

/-- The record update applied to record `i` by the assignment loop: cleaned
line `i` while one exists, else the raw title. -/
def retitle (cl : List Str) (i : Nat) (m : Movie) : Movie :=
  { m with titleClean := some (if i < cl.length then cl.getD i [] else m.title) }

theorem assignTitles_length (cl : List Str) :
    ∀ (j : Nat) (ms : List Movie), (assignTitles cl j ms).length = ms.length := by
  intro j ms
  induction ms generalizing j with
  | nil => rfl
  | cons m rest ih => simp [assignTitles, ih]

theorem assignTitles_get? (cl : List Str) :
    ∀ (ms : List Movie) (i j : Nat),
      (assignTitles cl j ms)[i]? = (ms[i]?).map (retitle cl (j + i)) := by
  intro ms
  induction ms with
  | nil => intro i j; simp [assignTitles]
  | cons m rest ih =>
    intro i j
    cases i with
    | zero => simp [assignTitles, retitle]
    | succ i2 =>
      have harith : j + 1 + i2 = j + (i2 + 1) := by omega
      simp only [assignTitles, List.getElem?_cons_succ, ih i2 (j + 1), harith]

/-- Claim C10: when the normalizer returns fewer non-empty cleaned lines
than there are records, the assignment is index-aligned: record `i` gets
cleaned line `i` while one exists, every later record keeps its raw title,
and no record is dropped or reordered. -/
theorem c10_title_alignment (txt : Str) (ms : List Movie)
    (hfew : (parseCleanedTitles txt).length < ms.length) :
    (cleanTitlesWithAI (some txt) ms).length = ms.length
  ∧ ∀ i : Nat, (cleanTitlesWithAI (some txt) ms)[i]?
      = (ms[i]?).map (retitle (parseCleanedTitles txt) i) := by
  have hne : ¬ ms.isEmpty = true := by
    cases ms with
    | nil => simp at hfew
    | cons a rest => simp
  have heq : cleanTitlesWithAI (some txt) ms
      = assignTitles (parseCleanedTitles txt) 0 ms := by
    unfold cleanTitlesWithAI
    rw [if_neg hne]
  constructor
  · rw [heq]
    exact assignTitles_length _ _ _
  · intro i
    rw [heq]
    have h := assignTitles_get? (parseCleanedTitles txt) ms i 0
    simpa using h

/-- Witness for C10: one cleaned line, two records — the second record keeps
its raw title and the length is kept. -/
theorem c10_title_alignment_witness :
    (cleanTitlesWithAI (some ("1. Dune".data))
        [newMovie ("Cine Dune 17:00".data), newMovie ("Oppenheimer".data)]).length
      = ([newMovie ("Cine Dune 17:00".data), newMovie ("Oppenheimer".data)] : List Movie).length
  ∧ (cleanTitlesWithAI (some ("1. Dune".data))
        [newMovie ("Cine Dune 17:00".data), newMovie ("Oppenheimer".data)])[1]?
      = (([newMovie ("Cine Dune 17:00".data),
           newMovie ("Oppenheimer".data)] : List Movie)[1]?).map
          (retitle (parseCleanedTitles ("1. Dune".data)) 1) := by
  constructor
  · exact (c10_title_alignment ("1. Dune".data)
      [newMovie ("Cine Dune 17:00".data), newMovie ("Oppenheimer".data)] (by decide)).1
  · exact (c10_title_alignment ("1. Dune".data)
      [newMovie ("Cine Dune 17:00".data), newMovie ("Oppenheimer".data)] (by decide)).2 1
